import Mathlib

set_option autoImplicit false

/-!
Shallow embedding of the post storage and threading engine of the Sled-Ops
discussion board (authoritative snapshot: src/15/src/main.rs).  Posts are
stored in a key-value store keyed by post id; records are JSON blobs that
may fail to deserialize.  The store is modelled as an association list of
keys and stored records; a record is either a deserializable Post or an
undeserializable blob.  Machine integers (u64 timestamps, usize indices)
are modelled as Nat; operations that can panic return Option.
-/

/-- The Post entity (struct Post, src/15/src/main.rs lines 15 to 24). -/
structure Post where
  id : String
  parent_id : Option String
  title : String
  message : String
  file : Option String
  timestamp : Nat
deriving DecidableEq, Repr

/-- Serde default for the timestamp field (fn default_timestamp). -/
def default_timestamp : Nat := 0

/-- The fallback Post built by unwrap_or_else when a stored record fails to
deserialize (src/15/src/main.rs lines 179 to 186 and 224 to 231). -/
def blankPost : Post :=
  { id := "", parent_id := none, title := "", message := "", file := none,
    timestamp := default_timestamp }

/-- A raw stored record: either a blob that deserializes to a Post, or a blob
that does not (serde_json from_slice failure). -/
inductive StoredRec where
  | good (p : Post)
  | bad
deriving DecidableEq, Repr

/-- Decoding a stored record the way the scan loops do: a failing record is
replaced by the blank default Post rather than skipped. -/
def decodeRec : StoredRec → Post
  | StoredRec.good p => p
  | StoredRec.bad => blankPost

/-- The sled database: an association list from keys to stored records. -/
abbrev Store := List (String × StoredRec)

/-- db.get(k): first record stored under key k. -/
def lookupRec : Store → String → Option StoredRec
  | [], _ => none
  | (k', r') :: rest, k => if k' = k then some r' else lookupRec rest k

/-- db.insert(k, r): replace the record under key k, or append a new entry. -/
def insertRec : Store → String → StoredRec → Store
  | [], k, r => [(k, r)]
  | (k', r') :: rest, k, r =>
    if k' = k then (k, r) :: rest else (k', r') :: insertRec rest k r

/-- The sequence of decoded values seen by db.iter().values(), each decoded
with the blank-post fallback. -/
def decodeAll (db : Store) : List Post := db.map (fun kv => decodeRec kv.2)

/-- Comparator of sort_by(|a, b| b.timestamp.cmp(&a.timestamp)): descending
timestamp order. -/
def tsDesc (a b : Post) : Prop := b.timestamp ≤ a.timestamp

/-- Ascending timestamp order (the order of replies after the reverse). -/
def tsAsc (a b : Post) : Prop := a.timestamp ≤ b.timestamp

instance : DecidableRel tsDesc := fun a b => Nat.decLe b.timestamp a.timestamp

instance : DecidableRel tsAsc := fun a b => Nat.decLe a.timestamp b.timestamp

instance : IsTotal Post tsDesc := ⟨fun a b => Nat.le_total b.timestamp a.timestamp⟩

instance : IsTrans Post tsDesc := ⟨fun _ _ _ hab hbc => Nat.le_trans hbc hab⟩

/-- Stable sort by descending timestamp, as posts.sort_by does. -/
def sortDesc (l : List Post) : List Post := List.insertionSort tsDesc l

/-- The Post value built by save_post (src/15/src/main.rs lines 140 to 147):
fresh id, caller-supplied fields, timestamp = now. -/
def mkPost (newId : String) (parent_id : Option String) (title message : String)
    (file : Option String) (now : Nat) : Post :=
  { id := newId, parent_id := parent_id, title := title, message := message,
    file := file, timestamp := now }

/-- save_post storage effect (src/15/src/main.rs lines 140 to 161): insert the
new post under its fresh id, then, if parent_id is present and db.get finds a
record, deserialize it with unwrap (an undeserializable record panics, modelled
as none), overwrite its timestamp with now and re-insert it under the decoded
record's own id field. -/
def save_post (db : Store) (newId : String) (parent_id : Option String)
    (title message : String) (file : Option String) (now : Nat) : Option Store :=
  let post := mkPost newId parent_id title message file now
  let db1 := insertRec db post.id (StoredRec.good post)
  match parent_id with
  | none => some db1
  | some pid =>
    match lookupRec db1 pid with
    | none => some db1
    | some StoredRec.bad => none
    | some (StoredRec.good parent_post) =>
      some (insertRec db1 parent_post.id
        (StoredRec.good { parent_post with timestamp := now }))

/-- One iteration of the scan loop of view_post (src/15/src/main.rs lines 178
to 195): a record whose id matches becomes the post (a later match wins), else
a record whose parent_id matches is appended to the replies. -/
def threadStep (post_id : String) (acc : Option Post × List Post) (p : Post) :
    Option Post × List Post :=
  if p.id = post_id then (some p, acc.2)
  else
    match p.parent_id with
    | some parent_id => if parent_id = post_id then (acc.1, acc.2 ++ [p]) else acc
    | none => acc

/-- view_post (src/15/src/main.rs lines 174 to 209): scan the store, collect
the matching post and its replies, sort replies by descending timestamp and
reverse (so they end up ascending); none models the 404 branch. -/
def view_post (db : Store) (post_id : String) : Option (Post × List Post) :=
  let s := (decodeAll db).foldl (threadStep post_id) (none, [])
  let replies := (sortDesc s.2).reverse
  match s.1 with
  | some post => some (post, replies)
  | none => none

/-- const POSTS_PER_PAGE (src/15/src/main.rs line 13). -/
def POSTS_PER_PAGE : Nat := 30

/-- The data rendered by the index template: page of posts plus the prev and
next page links (IndexTemplate, src/15/src/main.rs lines 60 to 66). -/
structure Page where
  posts : List Post
  prev_page : Option Nat
  next_page : Option Nat
deriving DecidableEq, Repr

/-- Rust range slicing l[a..b]: defined when a ≤ b and b ≤ l.len(), panics
otherwise (modelled as none). -/
def sliceTo (l : List Post) (a b : Nat) : Option (List Post) :=
  if a ≤ b ∧ b ≤ l.length then some ((l.drop a).take (b - a)) else none

/-- The bump-ordered top-level list built by index before pagination: decoded
records with parent_id == None, sorted by descending timestamp
(src/15/src/main.rs lines 222 to 238). -/
def topLevelSorted (db : Store) : List Post :=
  sortDesc ((decodeAll db).filter (fun p => p.parent_id.isNone))

/-- Number of top-level records in the store (the total the pagination window
ranges over). -/
def totalTop (db : Store) : Nat :=
  ((decodeAll db).filter (fun p => p.parent_id.isNone)).length

/-- index with an explicit page size (src/15/src/main.rs lines 217 to 253):
start = page * size, end = start + size, slice posts[start..end.min(len)],
prev_page = page-1 when page > 0, next_page = page+1 when end < len. -/
def indexWith (db : Store) (page pageSize : Nat) : Option Page :=
  let start_index := page * pageSize
  let end_index := start_index + pageSize
  let posts := topLevelSorted db
  match sliceTo posts start_index (min end_index posts.length) with
  | none => none
  | some paginated_posts =>
    some { posts := paginated_posts,
           prev_page := if page > 0 then some (page - 1) else none,
           next_page := if end_index < posts.length then some (page + 1) else none }

/-- index as in the source, with the fixed page size POSTS_PER_PAGE. -/
def index (db : Store) (page : Nat) : Option Page := indexWith db page POSTS_PER_PAGE

/-- str::ends_with on filenames, modelled over lists of characters. -/
def endsWith (s pat : List Char) : Bool := pat.isSuffixOf s

/-- Image suffix table of Post::is_image (src/15/src/main.rs lines 31 to 37). -/
def is_image_name (f : List Char) : Bool :=
  endsWith f ".jpg".data || endsWith f ".jpeg".data || endsWith f ".png".data ||
    endsWith f ".gif".data || endsWith f ".webp".data

/-- Video suffix table of Post::is_video (src/15/src/main.rs lines 39 to 45). -/
def is_video_name (f : List Char) : Bool :=
  endsWith f ".mp4".data || endsWith f ".webm".data

/-- Audio suffix table of Post::is_audio (src/15/src/main.rs lines 47 to 53). -/
def is_audio_name (f : List Char) : Bool := endsWith f ".mp3".data

/-- Attachment categories distinguished by the rendering layer. -/
inductive MediaKind where
  | image
  | video
  | audio
  | other
deriving DecidableEq, Repr

/-- classify(filename): the category the templates pick for an attachment via
is_image, is_video, is_audio, in that order. -/
def classify (f : List Char) : MediaKind :=
  if is_image_name f then MediaKind.image
  else if is_video_name f then MediaKind.video
  else if is_audio_name f then MediaKind.audio
  else MediaKind.other

/-- Post::is_image lifted to the optional file field. -/
def Post.is_image (p : Post) : Bool :=
  match p.file with
  | some f => is_image_name f.data
  | none => false

/-- Post::is_video lifted to the optional file field. -/
def Post.is_video (p : Post) : Bool :=
  match p.file with
  | some f => is_video_name f.data
  | none => false

/-- Post::is_audio lifted to the optional file field. -/
def Post.is_audio (p : Post) : Bool :=
  match p.file with
  | some f => is_audio_name f.data
  | none => false

/-- Bool predicate for records collected into the replies vector of view_post:
id differs from the target and parent_id equals the target. -/
def isReplyTo (t : String) (p : Post) : Bool :=
  decide (p.id ≠ t ∧ p.parent_id = some t)

/-- A record is well formed for its key when it deserializes and its id field
equals the key it is stored under. -/
def recMatches (k : String) : StoredRec → Bool
  | StoredRec.good p => p.id == k
  | StoredRec.bad => false

/-- Store well-formedness: every record deserializes and is stored under its
own id (the invariant save_post maintains for stores it built). -/
def wellFormed (db : Store) : Prop := ∀ kv ∈ db, recMatches kv.1 kv.2 = true

instance (db : Store) : Decidable (wellFormed db) :=
  decidable_of_iff (∀ kv ∈ db, recMatches kv.1 kv.2 = true) Iff.rfl

/-- Fold a sequence of replies to the post with id opId through save_post:
each element carries the fresh id of the reply and its submission time. -/
def createReplies (opId : String) : Store → List (String × Nat) → Option Store
  | db, [] => some db
  | db, (rid, t) :: rest =>
    match save_post db rid (some opId) "" "" none t with
    | none => none
    | some db' => createReplies opId db' rest
/-! Helper lemmas about the store primitives. -/

theorem lookupRec_insertRec_self (db : Store) (k : String) (r : StoredRec) :
    lookupRec (insertRec db k r) k = some r := by
  induction db with
  | nil => simp [insertRec, lookupRec]
  | cons kv rest ih =>
    obtain ⟨k', r'⟩ := kv
    by_cases h : k' = k
    · simp [insertRec, lookupRec, h]
    · simp [insertRec, lookupRec, h, ih]

theorem lookupRec_insertRec_ne (db : Store) (k k' : String) (r : StoredRec)
    (h : k' ≠ k) : lookupRec (insertRec db k r) k' = lookupRec db k' := by
  have hne : k ≠ k' := Ne.symm h
  induction db with
  | nil => simp [insertRec, lookupRec, hne]
  | cons kv rest ih =>
    obtain ⟨k'', r''⟩ := kv
    by_cases h2 : k'' = k
    · subst h2
      simp [insertRec, lookupRec, hne]
    · simp only [insertRec, if_neg h2]
      by_cases h3 : k'' = k'
      · simp [lookupRec, h3]
      · simp [lookupRec, h3, ih]

theorem wellFormed_lookup (db : Store) (k : String) (r : StoredRec)
    (hwf : wellFormed db) (h : lookupRec db k = some r) :
    ∃ q : Post, r = StoredRec.good q ∧ q.id = k := by
  induction db with
  | nil => simp [lookupRec] at h
  | cons kv rest ih =>
    obtain ⟨k', r'⟩ := kv
    by_cases h2 : k' = k
    · subst h2
      have hr : r' = r := by simpa [lookupRec] using h
      have hm := hwf (k', r') (by simp)
      cases r' with
      | good q =>
        refine ⟨q, by rw [← hr], ?_⟩
        simpa [recMatches] using hm
      | bad => simp [recMatches] at hm
    · simp only [lookupRec, if_neg h2] at h
      exact ih (fun kv hkv => hwf kv (List.mem_cons_of_mem _ hkv)) h

/-! Helper lemmas about the sorted lists. -/

theorem sortDesc_perm (l : List Post) : (sortDesc l).Perm l :=
  List.perm_insertionSort tsDesc l

theorem sortDesc_sorted (l : List Post) : List.Sorted tsDesc (sortDesc l) :=
  List.sorted_insertionSort tsDesc l

theorem sortDesc_reverse_sorted (l : List Post) :
    List.Sorted tsAsc (sortDesc l).reverse := by
  rw [List.Sorted, List.pairwise_reverse]
  have h := sortDesc_sorted l
  simpa [tsAsc, tsDesc, List.Sorted] using h

/-! Helper lemmas about the view_post scan loop. -/

theorem threadFold_replies (t : String) (l : List Post) :
    ∀ (o : Option Post) (acc : List Post),
      (l.foldl (threadStep t) (o, acc)).2 = acc ++ l.filter (isReplyTo t) := by
  induction l with
  | nil => intro o acc; simp
  | cons p rest ih =>
    intro o acc
    by_cases h1 : p.id = t
    · have hstep : threadStep t (o, acc) p = (some p, acc) := by
        simp [threadStep, h1]
      have hfil : isReplyTo t p = false := by simp [isReplyTo, h1]
      simp [List.foldl_cons, hstep, List.filter_cons, hfil, ih]
    · cases h2 : p.parent_id with
      | none =>
        have hstep : threadStep t (o, acc) p = (o, acc) := by
          simp [threadStep, h1, h2]
        have hfil : isReplyTo t p = false := by simp [isReplyTo, h2]
        simp [List.foldl_cons, hstep, List.filter_cons, hfil, ih]
      | some pid =>
        by_cases h3 : pid = t
        · have hstep : threadStep t (o, acc) p = (o, acc ++ [p]) := by
            simp [threadStep, h1, h2, h3]
          have hfil : isReplyTo t p = true := by simp [isReplyTo, h1, h2, h3]
          simp [List.foldl_cons, hstep, List.filter_cons, hfil, ih]
        · have hstep : threadStep t (o, acc) p = (o, acc) := by
            simp [threadStep, h1, h2, h3]
          have hfil : isReplyTo t p = false := by simp [isReplyTo, h2, h3]
          simp [List.foldl_cons, hstep, List.filter_cons, hfil, ih]

theorem threadFold_post_none (t : String) (l : List Post)
    (h : ∀ p ∈ l, p.id ≠ t) :
    ∀ (o : Option Post) (acc : List Post),
      (l.foldl (threadStep t) (o, acc)).1 = o := by
  induction l with
  | nil => intro o acc; simp
  | cons p rest ih =>
    intro o acc
    have h1 : p.id ≠ t := h p (by simp)
    have hrest := ih (fun q hq => h q (List.mem_cons_of_mem _ hq))
    cases h2 : p.parent_id with
    | none =>
      have hstep : threadStep t (o, acc) p = (o, acc) := by
        simp [threadStep, h1, h2]
      simp [List.foldl_cons, hstep, hrest]
    | some pid =>
      by_cases h3 : pid = t
      · have hstep : threadStep t (o, acc) p = (o, acc ++ [p]) := by
          simp [threadStep, h1, h2, h3]
        simp [List.foldl_cons, hstep, hrest]
      · have hstep : threadStep t (o, acc) p = (o, acc) := by
          simp [threadStep, h1, h2, h3]
        simp [List.foldl_cons, hstep, hrest]

theorem threadFold_post_mem (t : String) (l : List Post)
    (h : ∃ p ∈ l, p.id = t) :
    ∀ (o : Option Post) (acc : List Post),
      ∃ q, (l.foldl (threadStep t) (o, acc)).1 = some q ∧ q ∈ l ∧ q.id = t := by
  induction l with
  | nil => simp at h
  | cons p rest ih =>
    intro o acc
    by_cases hrest : ∃ q ∈ rest, q.id = t
    · obtain ⟨q, hq1, hq2, hq3⟩ :=
        ih hrest (threadStep t (o, acc) p).1 (threadStep t (o, acc) p).2
      exact ⟨q, by simpa [List.foldl_cons] using hq1, List.mem_cons_of_mem _ hq2, hq3⟩
    · have h1 : p.id = t := by
        obtain ⟨q, hq, hqt⟩ := h
        rcases List.mem_cons.mp hq with rfl | hmem
        · exact hqt
        · exact absurd ⟨q, hmem, hqt⟩ hrest
      have hstep : threadStep t (o, acc) p = (some p, acc) := by
        simp [threadStep, h1]
      have hnone : ∀ q ∈ rest, q.id ≠ t := by
        intro q hq hqt
        exact hrest ⟨q, hq, hqt⟩
      refine ⟨p, ?_, by simp, h1⟩
      simp [List.foldl_cons, hstep, threadFold_post_none t rest hnone]

theorem view_post_eq_none (db : Store) (t : String)
    (h : ∀ p ∈ decodeAll db, p.id ≠ t) : view_post db t = none := by
  simp only [view_post]
  rw [threadFold_post_none t (decodeAll db) h]

theorem view_post_replies (db : Store) (t : String) (p : Post) (rs : List Post)
    (h : view_post db t = some (p, rs)) :
    rs = (sortDesc ((decodeAll db).filter (isReplyTo t))).reverse := by
  simp only [view_post] at h
  cases hf : ((decodeAll db).foldl (threadStep t) (none, [])).1 with
  | none => rw [hf] at h; exact absurd h (by simp)
  | some q =>
    rw [hf] at h
    simp only [Option.some.injEq, Prod.mk.injEq] at h
    rw [← h.2, threadFold_replies t (decodeAll db) none []]
    simp

theorem view_post_found (db : Store) (t : String)
    (h : ∃ p ∈ decodeAll db, p.id = t) :
    ∃ q, view_post db t =
        some (q, (sortDesc ((decodeAll db).filter (isReplyTo t))).reverse) ∧
      q ∈ decodeAll db ∧ q.id = t := by
  obtain ⟨q, hq1, hq2, hq3⟩ := threadFold_post_mem t (decodeAll db) h none []
  refine ⟨q, ?_, hq2, hq3⟩
  simp only [view_post]
  rw [hq1, threadFold_replies t (decodeAll db) none []]
  simp

/-- C5: for every store whose decoded records satisfy the specified invariant
that no post is its own parent, and every target id carried by some decoded
record, getThread returns a matching post together with exactly the records
whose parent_id equals the target id, sorted by timestamp ascending (oldest
reply first); replies stored with timestamps 30, 10, 20 come back ordered
10, 20, 30; and when no decoded record has the target id, getThread signals
NotFound (modelled as none). -/
theorem c5_getThread_order :
    (∀ (db : Store) (t : String),
      (∀ p ∈ decodeAll db, p.parent_id ≠ some p.id) →
      (∃ p ∈ decodeAll db, p.id = t) →
      ∃ q rs, view_post db t = some (q, rs) ∧ q ∈ decodeAll db ∧ q.id = t ∧
        rs.Perm ((decodeAll db).filter (fun p => p.parent_id == some t)) ∧
        List.Sorted tsAsc rs) ∧
    (∀ (db : Store) (t : String),
      (∀ p ∈ decodeAll db, p.id ≠ t) → view_post db t = none) ∧
    view_post [("a", StoredRec.good (mkPost "a" none "T" "M" none 1)),
               ("b", StoredRec.good (mkPost "b" (some "a") "" "" none 30)),
               ("c", StoredRec.good (mkPost "c" (some "a") "" "" none 10)),
               ("d", StoredRec.good (mkPost "d" (some "a") "" "" none 20))] "a" =
      some (mkPost "a" none "T" "M" none 1,
            [mkPost "c" (some "a") "" "" none 10,
             mkPost "d" (some "a") "" "" none 20,
             mkPost "b" (some "a") "" "" none 30]) := by
  refine ⟨?_, view_post_eq_none, by decide⟩
  intro db t hnoself hmem
  obtain ⟨q, hview, hq2, hq3⟩ := view_post_found db t hmem
  have hfil : (decodeAll db).filter (isReplyTo t) =
      (decodeAll db).filter (fun p => p.parent_id == some t) := by
    apply List.filter_congr
    intro p hp
    by_cases hpt : p.parent_id = some t
    · have hpid : p.id ≠ t := by
        intro hid
        exact hnoself p hp (by rw [hpt, hid])
      simp [isReplyTo, hpt, hpid]
    · simp [isReplyTo, hpt]
  refine ⟨q, _, hview, hq2, hq3, ?_, ?_⟩
  · rw [hfil.symm]
    exact (List.reverse_perm _).trans (sortDesc_perm _)
  · exact sortDesc_reverse_sorted _

/-- C3 counterexample: a store holding a single record that fails to
deserialize; the top-level listing does not exclude it but shows it as the
blank fallback post, so the claim that every scan-based read excludes such a
record from its results is false. -/
theorem c3_counterexample :
    indexWith [("x", StoredRec.bad)] 0 30 =
      some { posts := [blankPost], prev_page := none, next_page := none } := by
  decide

/-- C3 amended: a record that fails to deserialize never makes a scan crash or
return an error, but it is not excluded: it is decoded as the blank fallback
post, which is retained by the top-level listing (its parent_id is None); it
never appears in any reply list (replies all carry parent_id equal to the
target), and getThread reports NotFound exactly when no decoded record,
fallback included, carries the target id. -/
theorem c3_bad_record_behaviour : ∀ (db : Store) (t : String),
    (StoredRec.bad ∈ db.map Prod.snd →
      blankPost ∈ (decodeAll db).filter (fun p => p.parent_id.isNone)) ∧
    (∀ p rs q, view_post db t = some (p, rs) → q ∈ rs → q.parent_id = some t) ∧
    (view_post db t = none ↔ ∀ p ∈ decodeAll db, p.id ≠ t) := by
  intro db t
  refine ⟨?_, ?_, ?_⟩
  · intro hbad
    obtain ⟨kv, hkv, hsnd⟩ := List.mem_map.mp hbad
    have hmem : blankPost ∈ decodeAll db := by
      apply List.mem_map.mpr
      exact ⟨kv, hkv, by rw [hsnd]; rfl⟩
    exact List.mem_filter.mpr ⟨hmem, by simp [blankPost]⟩
  · intro p rs q hview hq
    have hrs := view_post_replies db t p rs hview
    rw [hrs] at hq
    rw [List.mem_reverse] at hq
    have hq2 : q ∈ (decodeAll db).filter (isReplyTo t) := (sortDesc_perm _).subset hq
    have := List.of_mem_filter hq2
    simp only [isReplyTo, decide_eq_true_eq] at this
    exact this.2
  · constructor
    · intro hnone p hp hid
      obtain ⟨q, hview, _, _⟩ := view_post_found db t ⟨p, hp, hid⟩
      rw [hview] at hnone
      exact absurd hnone (by simp)
    · exact view_post_eq_none db t

/-- Witness for c5_getThread_order: its universal part applies to a concrete
two-record store and yields a successful thread view. -/
theorem c5_getThread_order_witness :
    (view_post [("a", StoredRec.good (mkPost "a" none "T" "M" none 1)),
                ("b", StoredRec.good (mkPost "b" (some "a") "" "" none 7))] "a").isSome
      = true := by
  obtain ⟨q, rs, h, -⟩ :=
    c5_getThread_order.1
      [("a", StoredRec.good (mkPost "a" none "T" "M" none 1)),
       ("b", StoredRec.good (mkPost "b" (some "a") "" "" none 7))] "a"
      (by decide) (by decide)
  simp [h]

/-- Witness for c3_bad_record_behaviour: on a store holding one bad record,
the blank fallback post is retained by the top-level filter. -/
theorem c3_bad_record_behaviour_witness :
    blankPost ∈ (decodeAll [("x", StoredRec.bad)]).filter (fun p => p.parent_id.isNone) :=
  (c3_bad_record_behaviour [("x", StoredRec.bad)] "z").1 (by decide)

/-! Helper lemmas about pagination. -/

theorem topLevelSorted_length (db : Store) :
    (topLevelSorted db).length = totalTop db :=
  (sortDesc_perm _).length_eq

/-- The page indexWith produces on a successful slice: the window of the
bump-ordered top-level list together with the two navigation links. -/
def expectedPage (db : Store) (page size : Nat) : Page where
  posts := ((topLevelSorted db).drop (page * size)).take
    (min (page * size + size) (topLevelSorted db).length - page * size)
  prev_page := if 0 < page then some (page - 1) else none
  next_page := if page * size + size < (topLevelSorted db).length
    then some (page + 1) else none

theorem indexWith_eq_some (db : Store) (page size : Nat)
    (h : page * size ≤ (topLevelSorted db).length) :
    indexWith db page size = some (expectedPage db page size) := by
  have hc : page * size ≤ min (page * size + size) (topLevelSorted db).length ∧
      min (page * size + size) (topLevelSorted db).length ≤ (topLevelSorted db).length :=
    ⟨Nat.le_min.mpr ⟨Nat.le_add_right _ _, h⟩, Nat.min_le_right _ _⟩
  simp only [indexWith, sliceTo, if_pos hc, expectedPage]

theorem indexWith_eq_none (db : Store) (page size : Nat)
    (h : (topLevelSorted db).length < page * size) :
    indexWith db page size = none := by
  have hc : ¬ (page * size ≤ min (page * size + size) (topLevelSorted db).length ∧
      min (page * size + size) (topLevelSorted db).length ≤ (topLevelSorted db).length) := by
    rintro ⟨h1, -⟩
    exact absurd (h1.trans (Nat.min_le_right _ _)) (Nat.not_le.mpr h)
  simp only [indexWith, sliceTo, if_neg hc]

theorem indexWith_inv (db : Store) (page size : Nat) (pg : Page)
    (h : indexWith db page size = some pg) :
    page * size ≤ (topLevelSorted db).length ∧ pg = expectedPage db page size := by
  by_cases hle : page * size ≤ (topLevelSorted db).length
  · rw [indexWith_eq_some db page size hle] at h
    exact ⟨hle, by injection h.symm⟩
  · rw [indexWith_eq_none db page size (Nat.not_le.mp hle)] at h
    exact absurd h (by simp)

/-- C4: the top-level listing retains exactly the decoded records whose
parent_id is None and orders them by descending timestamp; every returned page
is a window of that sorted list, is itself sorted descending and contains only
top-level posts; and in the concrete scenario with OPs A at timestamp 5 and B
at timestamp 15, after a reply bumps A to timestamp 20 the first page lists A
before B. -/
theorem c4_top_level_listing :
    (∀ db : Store,
      (topLevelSorted db).Perm ((decodeAll db).filter (fun p => p.parent_id.isNone)) ∧
      List.Sorted tsDesc (topLevelSorted db)) ∧
    (∀ (db : Store) (page size : Nat) (pg : Page),
      indexWith db page size = some pg →
      pg.posts.Sublist (topLevelSorted db) ∧ List.Sorted tsDesc pg.posts ∧
      ∀ p ∈ pg.posts, p.parent_id = none) ∧
    ((save_post [] "a" none "A" "" none 5).bind (fun d1 =>
      (save_post d1 "b" none "B" "" none 15).bind (fun d2 =>
        (save_post d2 "r" (some "a") "re" "" none 20).bind (fun d3 =>
          indexWith d3 0 10))) =
      some { posts := [mkPost "a" none "A" "" none 20, mkPost "b" none "B" "" none 15],
             prev_page := none, next_page := none }) := by
  refine ⟨fun db => ⟨sortDesc_perm _, sortDesc_sorted _⟩, ?_, by decide⟩
  intro db page size pg h
  obtain ⟨-, hpg⟩ := indexWith_inv db page size pg h
  have hsub : pg.posts.Sublist (topLevelSorted db) := by
    rw [hpg]
    exact (List.take_sublist _ _).trans (List.drop_sublist _ _)
  refine ⟨hsub, List.Pairwise.sublist hsub (sortDesc_sorted _), ?_⟩
  intro p hp
  have hmem : p ∈ (decodeAll db).filter (fun p => p.parent_id.isNone) :=
    (sortDesc_perm _).subset (hsub.subset hp)
  simpa [Option.isNone_iff_eq_none] using List.of_mem_filter hmem

/-- Witness for c4_top_level_listing: the page-window part applied to a
one-post store at page 0. -/
theorem c4_top_level_listing_witness :
    List.Sorted tsDesc [mkPost "a" none "A" "" none 5] := by
  have h := (c4_top_level_listing.2.1
    [("a", StoredRec.good (mkPost "a" none "A" "" none 5))] 0 30
    { posts := [mkPost "a" none "A" "" none 5], prev_page := none, next_page := none }
    (by decide))
  exact h.2.1

/-- C2: the spec claims that whenever start = page times pageSize is at least
the number of top-level posts, listTopLevel returns an empty sequence and does
not fail; the code instead slices posts[start..end.min(len)], which panics as
soon as start exceeds len (start equal to len still yields an empty page, as
the first conjunct shows; page 1 of an empty store, start 30 over total 0,
fails instead of returning an empty page). -/
theorem c2_page_overflow :
    index ([] : Store) 0 = some { posts := [], prev_page := none, next_page := none } ∧
    index ([] : Store) 1 = none := ⟨by decide, by decide⟩

/-- C6 counterexample: with total = 0 the claim says every page is empty with
both flags false, but page 1 of an empty store produces no page at all (the
slice computation fails), and the claimed hasPrev formula would be true there
anyway. -/
theorem c6_counterexample : indexWith ([] : Store) 1 5 = none := by decide

/-- C6 amended: on every successful call the flags follow the claimed
formulas, hasPrev iff page is positive and hasNext iff the window end is below
the total; with total = 0, page 0 (the only page that does not fail) is empty
with both links absent; with total = pageSize, page 0 returns all items with
no next link; with total = pageSize + 1, page 0 returns pageSize items with a
next link and page 1 returns exactly one item with only a prev link. -/
theorem c6_pagination_flags :
    (∀ (db : Store) (page size : Nat) (pg : Page),
      indexWith db page size = some pg →
      pg.prev_page = (if 0 < page then some (page - 1) else none) ∧
      pg.next_page = (if page * size + size < totalTop db then some (page + 1) else none)) ∧
    (∀ (db : Store) (size : Nat), totalTop db = 0 →
      indexWith db 0 size = some { posts := [], prev_page := none, next_page := none }) ∧
    (∀ (db : Store) (size : Nat), totalTop db = size →
      indexWith db 0 size =
        some { posts := topLevelSorted db, prev_page := none, next_page := none }) ∧
    (∀ (db : Store) (size : Nat), totalTop db = size + 1 → 1 ≤ size →
      (∃ pg, indexWith db 0 size = some pg ∧ pg.posts.length = size ∧
        pg.prev_page = none ∧ pg.next_page = some 1) ∧
      (∃ pg, indexWith db 1 size = some pg ∧ pg.posts.length = 1 ∧
        pg.prev_page = some 0 ∧ pg.next_page = none)) := by
  refine ⟨?_, ?_, ?_, ?_⟩
  · intro db page size pg h
    obtain ⟨-, hpg⟩ := indexWith_inv db page size pg h
    rw [hpg]
    constructor
    · rfl
    · simp only [expectedPage, topLevelSorted_length]
  · intro db size h
    have hlen : (topLevelSorted db).length = 0 := by rw [topLevelSorted_length, h]
    have hnil : topLevelSorted db = [] := List.length_eq_zero.mp hlen
    rw [indexWith_eq_some db 0 size (by simp [hlen])]
    simp [expectedPage, hnil]
  · intro db size h
    have hlen : (topLevelSorted db).length = size := by rw [topLevelSorted_length, h]
    rw [indexWith_eq_some db 0 size (by simp)]
    have htake : (topLevelSorted db).take size = topLevelSorted db := by
      rw [← hlen]
      exact List.take_length _
    simp [expectedPage, hlen, htake]
  · intro db size h hsz
    have hlen : (topLevelSorted db).length = size + 1 := by rw [topLevelSorted_length, h]
    constructor
    · refine ⟨expectedPage db 0 size, indexWith_eq_some db 0 size (by simp), ?_, ?_, ?_⟩
      · simp only [expectedPage, List.length_take, List.length_drop, hlen]
        omega
      · rfl
      · simp only [expectedPage, hlen]
        rw [if_pos (by omega)]
    · refine ⟨expectedPage db 1 size, indexWith_eq_some db 1 size (by omega), ?_, ?_, ?_⟩
      · simp only [expectedPage, List.length_take, List.length_drop, hlen]
        omega
      · rfl
      · simp only [expectedPage, hlen]
        rw [if_neg (by omega)]

/-- Witness for c6_pagination_flags: its flags part applied to a concrete
successful call, and its boundary parts applied to a one-post store with page
size 1. -/
theorem c6_pagination_flags_witness :
    indexWith [("a", StoredRec.good (mkPost "a" none "A" "" none 5))] 0 1 =
      some { posts := [mkPost "a" none "A" "" none 5],
             prev_page := none, next_page := none } :=
  c6_pagination_flags.2.2.1 [("a", StoredRec.good (mkPost "a" none "A" "" none 5))] 1
    (by decide)

/-! Helper lemmas about save_post. -/

theorem save_post_no_parent (db : Store) (newId ti me : String) (fi : Option String)
    (now : Nat) :
    save_post db newId none ti me fi now =
      some (insertRec db newId (StoredRec.good (mkPost newId none ti me fi now))) := rfl

theorem save_post_parent (db : Store) (newId p ti me : String) (fi : Option String)
    (now : Nat) :
    save_post db newId (some p) ti me fi now =
      match lookupRec (insertRec db newId
          (StoredRec.good (mkPost newId (some p) ti me fi now))) p with
      | none =>
        some (insertRec db newId (StoredRec.good (mkPost newId (some p) ti me fi now)))
      | some StoredRec.bad => none
      | some (StoredRec.good q) =>
        some (insertRec
          (insertRec db newId (StoredRec.good (mkPost newId (some p) ti me fi now)))
          q.id (StoredRec.good { q with timestamp := now })) := rfl

theorem insertRec_insertRec_self (db : Store) (k : String) (r r' : StoredRec) :
    insertRec (insertRec db k r) k r' = insertRec db k r' := by
  induction db with
  | nil => simp [insertRec]
  | cons kv rest ih =>
    obtain ⟨k'', r''⟩ := kv
    by_cases h : k'' = k
    · simp [insertRec, h]
    · simp [insertRec, h, ih]

theorem save_post_frame (db : Store) (newId : String) (pid : Option String)
    (ti me : String) (fi : Option String) (now : Nat) (db' : Store)
    (hwf : wellFormed db) (hfresh : lookupRec db newId = none)
    (hsave : save_post db newId pid ti me fi now = some db') :
    (∀ k, k ≠ newId → pid ≠ some k → lookupRec db' k = lookupRec db k) ∧
    (∀ p q, pid = some p → p ≠ newId → lookupRec db p = some (StoredRec.good q) →
      lookupRec db' p = some (StoredRec.good { q with timestamp := now })) := by
  cases pid with
  | none =>
    rw [save_post_no_parent] at hsave
    have hdb : db' = insertRec db newId (StoredRec.good (mkPost newId none ti me fi now)) :=
      by injection hsave.symm
    subst hdb
    exact ⟨fun k hk _ => lookupRec_insertRec_ne db newId k _ hk, by simp⟩
  | some p =>
    by_cases hp : p = newId
    · subst hp
      have hl1 : lookupRec (insertRec db p
          (StoredRec.good (mkPost p (some p) ti me fi now))) p =
          some (StoredRec.good (mkPost p (some p) ti me fi now)) :=
        lookupRec_insertRec_self db p _
      rw [save_post_parent, hl1] at hsave
      have hdb : db' = insertRec
          (insertRec db p (StoredRec.good (mkPost p (some p) ti me fi now)))
          p (StoredRec.good (mkPost p (some p) ti me fi now)) := by injection hsave.symm
      rw [insertRec_insertRec_self] at hdb
      subst hdb
      refine ⟨fun k hk _ => lookupRec_insertRec_ne db p k _ hk, ?_⟩
      intro p' q hp' hne _
      exact absurd (by injection hp' with h; exact h.symm) hne
    · have hl1 : lookupRec (insertRec db newId
          (StoredRec.good (mkPost newId (some p) ti me fi now))) p = lookupRec db p :=
        lookupRec_insertRec_ne db newId p _ hp
      cases hdbp : lookupRec db p with
      | none =>
        rw [save_post_parent, hl1, hdbp] at hsave
        have hdb : db' = insertRec db newId
            (StoredRec.good (mkPost newId (some p) ti me fi now)) := by injection hsave.symm
        subst hdb
        refine ⟨fun k hk _ => lookupRec_insertRec_ne db newId k _ hk, ?_⟩
        intro p' q hp' _ hlp
        have : p' = p := by injection hp' with h; exact h.symm
        subst this
        rw [hdbp] at hlp
        exact absurd hlp (by simp)
      | some r =>
        obtain ⟨q0, hq0, hq0id⟩ := wellFormed_lookup db p r hwf hdbp
        subst hq0
        rw [save_post_parent, hl1, hdbp] at hsave
        have hdb : db' = insertRec
            (insertRec db newId (StoredRec.good (mkPost newId (some p) ti me fi now)))
            q0.id (StoredRec.good { q0 with timestamp := now }) := by injection hsave.symm
        subst hdb
        constructor
        · intro k hk hpk
          have hkp : k ≠ p := fun hkp => hpk (by rw [hkp])
          rw [hq0id, lookupRec_insertRec_ne _ p k _ hkp,
            lookupRec_insertRec_ne db newId k _ hk]
        · intro p' q hp' _ hlp
          have hpp : p' = p := by injection hp' with h; exact h.symm
          subst hpp
          rw [hdbp] at hlp
          have hqq : q0 = q := by injection hlp with h2; injection h2
          subst hqq
          rw [hq0id, lookupRec_insertRec_self]

/-- C1 counterexample: a store whose only record under the parent key fails to
deserialize; no post with that id exists, the reply is inserted first, yet the
create call fails (the parent deserialization unwrap panics, modelled none)
instead of returning with no error as the claim demands. -/
theorem c1_counterexample :
    lookupRec [("p", StoredRec.bad)] "p" = some StoredRec.bad ∧
    save_post [("p", StoredRec.bad)] "n" (some "p") "T" "M" none 5 = none :=
  ⟨by decide, by decide⟩

/-- C1 amended: create stores the new post under its fresh id with timestamp
now; when parent_id names a key whose record deserializes to a Post, that
parent is re-persisted with its timestamp overwritten to now (the bump); when
no record with that key exists, the reply is still stored, no bump occurs and
no error is raised; when a record exists under that key but fails to
deserialize, the reply is stored but the call then fails (deserialization
panic) rather than returning successfully. -/
theorem c1_create_and_bump :
    ∀ (db : Store) (newId p ti me : String) (fi : Option String) (now : Nat),
      p ≠ newId →
      (save_post db newId none ti me fi now =
        some (insertRec db newId (StoredRec.good (mkPost newId none ti me fi now)))) ∧
      (lookupRec db p = none →
        save_post db newId (some p) ti me fi now =
          some (insertRec db newId (StoredRec.good (mkPost newId (some p) ti me fi now)))) ∧
      (∀ q : Post, lookupRec db p = some (StoredRec.good q) →
        save_post db newId (some p) ti me fi now =
          some (insertRec
            (insertRec db newId (StoredRec.good (mkPost newId (some p) ti me fi now)))
            q.id (StoredRec.good { q with timestamp := now }))) ∧
      (lookupRec db p = some StoredRec.bad →
        save_post db newId (some p) ti me fi now = none) := by
  intro db newId p ti me fi now hne
  have hl : lookupRec (insertRec db newId
      (StoredRec.good (mkPost newId (some p) ti me fi now))) p = lookupRec db p :=
    lookupRec_insertRec_ne db newId p _ hne
  refine ⟨rfl, ?_, ?_, ?_⟩
  · intro h
    rw [save_post_parent, hl, h]
  · intro q h
    rw [save_post_parent, hl, h]
  · intro h
    rw [save_post_parent, hl, h]

/-- Witness for c1_create_and_bump: the bump branch applied to a one-post
store. -/
theorem c1_create_and_bump_witness :
    save_post [("p", StoredRec.good (mkPost "p" none "t" "m" none 1))]
        "n" (some "p") "T" "M" none 9 =
      some (insertRec
        (insertRec [("p", StoredRec.good (mkPost "p" none "t" "m" none 1))] "n"
          (StoredRec.good (mkPost "n" (some "p") "T" "M" none 9)))
        (mkPost "p" none "t" "m" none 1).id
        (StoredRec.good { mkPost "p" none "t" "m" none 1 with timestamp := 9 })) :=
  (c1_create_and_bump [("p", StoredRec.good (mkPost "p" none "t" "m" none 1))]
    "n" "p" "T" "M" none 9 (by decide)).2.2.1
    (mkPost "p" none "t" "m" none 1) (by decide)

/-- C10 counterexample: a store where the record under key p carries id field
q (the key-equals-id invariant is broken); the bump of parent_id p re-persists
the decoded record under its id field q, so the record under key q, which is
neither the fresh id n nor the given parent_id p, changes. -/
theorem c10_counterexample :
    (save_post [("p", StoredRec.good (mkPost "q" none "" "" none 1)),
                ("q", StoredRec.good (mkPost "q" none "tQ" "mQ" none 5))]
        "n" (some "p") "T" "M" none 9).map (fun d => lookupRec d "q") =
      some (some (StoredRec.good (mkPost "q" none "" "" none 9))) ∧
    lookupRec [("p", StoredRec.good (mkPost "q" none "" "" none 1)),
               ("q", StoredRec.good (mkPost "q" none "tQ" "mQ" none 5))] "q" =
      some (StoredRec.good (mkPost "q" none "tQ" "mQ" none 5)) :=
  ⟨by decide, by decide⟩

/-- C10 amended: on a well-formed store (every record deserializes and is
keyed by its own id, the invariant the core maintains) and a fresh id, every
record whose key is neither the fresh id nor the given parent_id is unchanged
by create, and when the bump applies the parent record changes only in its
timestamp field, which becomes now. -/
theorem c10_frame :
    ∀ (db : Store) (newId : String) (pid : Option String) (ti me : String)
      (fi : Option String) (now : Nat) (db' : Store),
      wellFormed db →
      lookupRec db newId = none →
      save_post db newId pid ti me fi now = some db' →
      (∀ k, k ≠ newId → pid ≠ some k → lookupRec db' k = lookupRec db k) ∧
      (∀ p q, pid = some p → p ≠ newId → lookupRec db p = some (StoredRec.good q) →
        lookupRec db' p = some (StoredRec.good { q with timestamp := now })) :=
  fun db newId pid ti me fi now db' hwf hfresh hsave =>
    save_post_frame db newId pid ti me fi now db' hwf hfresh hsave

/-- Witness for c10_frame: in a two-post well-formed store, creating a reply
to p leaves the unrelated record z untouched. -/
theorem c10_frame_witness :
    lookupRec [("p", StoredRec.good (mkPost "p" none "t" "m" none 9)),
               ("z", StoredRec.good (mkPost "z" none "zz" "" none 3)),
               ("n", StoredRec.good (mkPost "n" (some "p") "T" "M" none 9))] "z" =
      lookupRec [("p", StoredRec.good (mkPost "p" none "t" "m" none 1)),
                 ("z", StoredRec.good (mkPost "z" none "zz" "" none 3))] "z" :=
  (c10_frame [("p", StoredRec.good (mkPost "p" none "t" "m" none 1)),
              ("z", StoredRec.good (mkPost "z" none "zz" "" none 3))]
    "n" (some "p") "T" "M" none 9
    [("p", StoredRec.good (mkPost "p" none "t" "m" none 9)),
     ("z", StoredRec.good (mkPost "z" none "zz" "" none 3)),
     ("n", StoredRec.good (mkPost "n" (some "p") "T" "M" none 9))]
    (by decide) (by decide) (by decide)).1 "z" (by decide) (by decide)

/-- C8 counterexample: reply r is created at time 10; a later create whose
parent_id is r itself overwrites the timestamp of r with 20, so the timestamp
of a stored reply is mutated by a subsequent operation. -/
theorem c8_counterexample :
    lookupRec [("a", StoredRec.good (mkPost "a" none "t" "m" none 5)),
               ("r", StoredRec.good (mkPost "r" (some "a") "t2" "m2" none 10))] "r" =
      some (StoredRec.good (mkPost "r" (some "a") "t2" "m2" none 10)) ∧
    (save_post [("a", StoredRec.good (mkPost "a" none "t" "m" none 5)),
                ("r", StoredRec.good (mkPost "r" (some "a") "t2" "m2" none 10))]
        "x" (some "r") "T" "M" none 20).map (fun d => lookupRec d "r") =
      some (some (StoredRec.good (mkPost "r" (some "a") "t2" "m2" none 20))) :=
  ⟨by decide, by decide⟩

/-- C8 amended: in a well-formed store, a stored reply keeps its creation
timestamp across any create whose parent_id is not the reply's own id; the
bump rule applies to whatever record the parent_id references, so a create
whose parent_id is the reply's id overwrites the reply's timestamp with now. -/
theorem c8_reply_timestamp :
    ∀ (db : Store) (k newId : String) (r : Post) (pid : Option String)
      (ti me : String) (fi : Option String) (now : Nat) (db' : Store),
      wellFormed db →
      lookupRec db k = some (StoredRec.good r) →
      r.parent_id ≠ none →
      lookupRec db newId = none →
      save_post db newId pid ti me fi now = some db' →
      (pid ≠ some k → lookupRec db' k = some (StoredRec.good r)) ∧
      (pid = some k → lookupRec db' k = some (StoredRec.good { r with timestamp := now })) := by
  intro db k newId r pid ti me fi now db' hwf hlook hreply hfresh hsave
  have hk : k ≠ newId := by
    intro h
    rw [h, hfresh] at hlook
    exact absurd hlook (by simp)
  obtain ⟨hframe, hbump⟩ := save_post_frame db newId pid ti me fi now db' hwf hfresh hsave
  exact ⟨fun hpk => by rw [hframe k hk hpk, hlook], fun hpk => hbump k r hpk hk hlook⟩

/-- Witness for c8_reply_timestamp: a reply to the OP a leaves the timestamp
of the stored reply r unchanged. -/
theorem c8_reply_timestamp_witness :
    lookupRec [("a", StoredRec.good (mkPost "a" none "t" "m" none 20)),
               ("r", StoredRec.good (mkPost "r" (some "a") "t2" "m2" none 10)),
               ("x", StoredRec.good (mkPost "x" (some "a") "T" "M" none 20))] "r" =
      some (StoredRec.good (mkPost "r" (some "a") "t2" "m2" none 10)) :=
  (c8_reply_timestamp
    [("a", StoredRec.good (mkPost "a" none "t" "m" none 5)),
     ("r", StoredRec.good (mkPost "r" (some "a") "t2" "m2" none 10))]
    "r" "x" (mkPost "r" (some "a") "t2" "m2" none 10) (some "a") "T" "M" none 20
    [("a", StoredRec.good (mkPost "a" none "t" "m" none 20)),
     ("r", StoredRec.good (mkPost "r" (some "a") "t2" "m2" none 10)),
     ("x", StoredRec.good (mkPost "x" (some "a") "T" "M" none 20))]
    (by decide) (by decide) (by decide) (by decide) (by decide)).1 (by decide)

/-! Helper lemmas for the reply sequence of C7. -/

theorem getLastD_cons {α : Type} (a : α) (l : List α) (d : α) :
    ((a :: l).getLast?).getD d = (l.getLast?).getD a := by
  induction l generalizing a d with
  | nil => rfl
  | cons b l' ih => rw [List.getLast?_cons_cons, ih b d, ih b a]

theorem createReplies_ok (opId : String) (replies : List (String × Nat)) :
    ∀ (db : Store) (op : Post), op.id = opId →
      lookupRec db opId = some (StoredRec.good op) →
      (∀ rt ∈ replies, rt.1 ≠ opId) →
      ∃ db', createReplies opId db replies = some db' ∧
        lookupRec db' opId =
          some (StoredRec.good
            { op with timestamp := ((replies.map Prod.snd).getLast?).getD op.timestamp }) := by
  induction replies with
  | nil =>
    intro db op hid hlook hids
    exact ⟨db, rfl, by simpa using hlook⟩
  | cons rt rest ih =>
    obtain ⟨rid, t⟩ := rt
    intro db op hid hlook hids
    have hrid : rid ≠ opId := hids (rid, t) (by simp)
    have hl1 : lookupRec (insertRec db rid
        (StoredRec.good (mkPost rid (some opId) "" "" none t))) opId =
        some (StoredRec.good op) := by
      rw [lookupRec_insertRec_ne db rid opId _ (Ne.symm hrid)]
      exact hlook
    have hsave : save_post db rid (some opId) "" "" none t =
        some (insertRec (insertRec db rid (StoredRec.good (mkPost rid (some opId) "" "" none t)))
          op.id (StoredRec.good { op with timestamp := t })) := by
      rw [save_post_parent, hl1]
    obtain ⟨db', hrun, hfin⟩ := ih
      (insertRec (insertRec db rid (StoredRec.good (mkPost rid (some opId) "" "" none t)))
        op.id (StoredRec.good { op with timestamp := t }))
      { op with timestamp := t } hid
      (by rw [← hid]; exact lookupRec_insertRec_self _ _ _)
      (fun q hq => hids q (List.mem_cons_of_mem _ hq))
    refine ⟨db', ?_, ?_⟩
    · simp only [createReplies, hsave, hrun]
    · rw [hfin, List.map_cons, getLastD_cons]

/-- C7: for every OP present in the store and every nonempty sequence of
replies to that OP with fresh ids and strictly increasing submission times,
after all the creates the stored timestamp of the OP equals the submission
time of the last-applied reply. -/
theorem c7_bump_monotonic :
    ∀ (db : Store) (op : Post) (replies : List (String × Nat)),
      lookupRec db op.id = some (StoredRec.good op) →
      (∀ rt ∈ replies, rt.1 ≠ op.id) →
      replies ≠ [] →
      List.Chain' (fun a b : String × Nat => a.2 < b.2) replies →
      ∃ db', createReplies op.id db replies = some db' ∧
        lookupRec db' op.id =
          some (StoredRec.good
            { op with timestamp := ((replies.map Prod.snd).getLast?).getD op.timestamp }) := by
  intro db op replies hlook hids hne hchain
  exact createReplies_ok op.id replies db op rfl hlook hids

/-- Witness for c7_bump_monotonic: two replies at times 5 and 7 leave the OP
stored with timestamp 7 (the last-applied reply). -/
theorem c7_bump_monotonic_witness :
    (createReplies "a" [("a", StoredRec.good (mkPost "a" none "t" "m" none 1))]
        [("x", 5), ("y", 7)]).map (fun d => lookupRec d "a") =
      some (some (StoredRec.good (mkPost "a" none "t" "m" none 7))) := by
  obtain ⟨db', hrun, hfin⟩ :=
    c7_bump_monotonic [("a", StoredRec.good (mkPost "a" none "t" "m" none 1))]
      (mkPost "a" none "t" "m" none 1) [("x", 5), ("y", 7)]
      (by decide) (by decide) (by decide) (List.chain'_pair.mpr (by decide))
  simp only [mkPost] at hrun hfin
  simp only [mkPost]
  rw [hrun]
  simp only [Option.map_some']
  rw [hfin]
  decide

/-! Helper lemmas for media classification. -/

theorem both_suffix_absurd {a b f : List Char}
    (hab : ¬ a <:+ b) (hba : ¬ b <:+ a) (ha : a <:+ f) (hb : b <:+ f) : False :=
  (List.suffix_or_suffix_of_suffix ha hb).elim hab hba

theorem endsWith_iff (s pat : List Char) : endsWith s pat = true ↔ pat <:+ s := by
  simp [endsWith, List.isSuffixOf_iff_suffix]

theorem not_image_of_video (f : List Char) (h : is_video_name f = true) :
    is_image_name f = false := by
  by_contra hi
  rw [Bool.not_eq_false, is_image_name] at hi
  rw [is_video_name] at h
  simp only [Bool.or_eq_true, endsWith_iff] at h hi
  rcases hi with ((((hi|hi)|hi)|hi)|hi) <;> rcases h with h|h <;>
    exact both_suffix_absurd (by decide) (by decide) hi h

theorem not_image_of_audio (f : List Char) (h : is_audio_name f = true) :
    is_image_name f = false := by
  by_contra hi
  rw [Bool.not_eq_false, is_image_name] at hi
  rw [is_audio_name] at h
  simp only [Bool.or_eq_true, endsWith_iff] at h hi
  rcases hi with ((((hi|hi)|hi)|hi)|hi) <;>
    exact both_suffix_absurd (by decide) (by decide) hi h

theorem not_video_of_audio (f : List Char) (h : is_audio_name f = true) :
    is_video_name f = false := by
  by_contra hv
  rw [Bool.not_eq_false, is_video_name] at hv
  rw [is_audio_name] at h
  simp only [Bool.or_eq_true, endsWith_iff] at h hv
  rcases hv with hv|hv <;>
    exact both_suffix_absurd (by decide) (by decide) hv h

/-- C9: classify is total and driven by case-sensitive suffix match alone: a
filename with an image suffix (.jpg, .jpeg, .png, .gif, .webp) classifies as
Image, one with a video suffix (.mp4, .webm) as Video, one ending in .mp3 as
Audio, and a filename matching none of the table, unknown extensions and
extensionless names included, as Other; the outcome is always exactly one of
the four categories. -/
theorem c9_classify_table :
    ∀ f : List Char,
      (is_image_name f = true → classify f = MediaKind.image) ∧
      (is_video_name f = true → classify f = MediaKind.video) ∧
      (is_audio_name f = true → classify f = MediaKind.audio) ∧
      (is_image_name f = false → is_video_name f = false → is_audio_name f = false →
        classify f = MediaKind.other) ∧
      (classify f = MediaKind.image ∨ classify f = MediaKind.video ∨
        classify f = MediaKind.audio ∨ classify f = MediaKind.other) := by
  intro f
  refine ⟨?_, ?_, ?_, ?_, ?_⟩
  · intro h
    simp [classify, h]
  · intro h
    simp [classify, not_image_of_video f h, h]
  · intro h
    simp [classify, not_image_of_audio f h, not_video_of_audio f h, h]
  · intro h1 h2 h3
    simp [classify, h1, h2, h3]
  · cases hc : classify f <;> simp

/-- Witness for c9_classify_table: concrete filenames covering the four
categories, with a case-changed and an extensionless name landing in Other. -/
theorem c9_classify_table_witness :
    classify "a.png".data = MediaKind.image ∧
    classify "b.webm".data = MediaKind.video ∧
    classify "c.mp3".data = MediaKind.audio ∧
    classify "d.txt".data = MediaKind.other ∧
    classify "NOEXT".data = MediaKind.other ∧
    classify "e.JPG".data = MediaKind.other :=
  ⟨(c9_classify_table "a.png".data).1 (by decide),
   (c9_classify_table "b.webm".data).2.1 (by decide),
   (c9_classify_table "c.mp3".data).2.2.1 (by decide),
   (c9_classify_table "d.txt".data).2.2.2.1 (by decide) (by decide) (by decide),
   (c9_classify_table "NOEXT".data).2.2.2.1 (by decide) (by decide) (by decide),
   (c9_classify_table "e.JPG".data).2.2.2.1 (by decide) (by decide) (by decide)⟩
